import Mathlib

/-!
Shallow embedding of the multi-source logo resolution engine of svgLogos
(src/services/logoService.ts) and proofs of the specified properties.

The validator `isValidSvgUrl` performs network I/O; it is modelled as an
oracle `valid : String → Bool` passed to each operation (the code's
`isValidSvgUrl` never throws: it catches transport errors and returns
false).  The module-level mutable maps (`searchCache`, `usedSources`,
`failedSources`) are modelled as an explicit `EngineState` threaded through
the operations, with JS `Map`s as association lists and JS `Set`s as
insertion-ordered duplicate-free lists.  Each operation additionally
returns the trace of (providerId, url) pairs on which the validator was
invoked, so that back-off behaviour ("the validator is not invoked for a
recently failed source") is observable.
-/

set_option autoImplicit false

namespace SvgLogos

/-- Result record returned by the engine (interface `LogoSearchResult`). -/
structure LogoSearchResult where
  id : String
  url : String
  source : String
  sourceProvider : String
  deriving DecidableEq, Repr

/-- Batch result (interface `MultiLogoSearchResult`). -/
structure MultiLogoSearchResult where
  successes : List LogoSearchResult
  failures : List String
  deriving DecidableEq, Repr

/-- One provider of `LOGO_SOURCES`: its object key (`pid`), display name,
and ordered URL generators. -/
structure LogoSource where
  pid : String
  name : String
  urls : List (String → String)

/-- The source registry `LOGO_SOURCES`, in object-literal (insertion) order. -/
def LOGO_SOURCES : List LogoSource := [
  { pid := "simpleIcons", name := "Simple Icons", urls := [
      fun term => "https://raw.githubusercontent.com/simple-icons/simple-icons/develop/icons/" ++ term ++ ".svg",
      fun term => "https://cdn.jsdelivr.net/npm/simple-icons@latest/icons/" ++ term ++ ".svg",
      fun term => "https://raw.githubusercontent.com/simple-icons/simple-icons/master/icons/" ++ term ++ ".svg"] },
  { pid := "vectorLogoZone", name := "Vector Logo Zone", urls := [
      fun term => "https://www.vectorlogo.zone/logos/" ++ term ++ "/" ++ term ++ "-icon.svg",
      fun term => "https://www.vectorlogo.zone/logos/" ++ term ++ "/" ++ term ++ ".svg"] },
  { pid := "iconify", name := "Iconify", urls := [
      fun term => "https://api.iconify.design/" ++ term ++ ".svg",
      fun term => "https://api.iconify.design/logos/" ++ term ++ ".svg",
      fun term => "https://api.iconify.design/logos-" ++ term ++ ".svg"] },
  { pid := "svgPorn", name := "SVG Porn", urls := [
      fun term => "https://cdn.svgporn.com/logos/" ++ term ++ ".svg",
      fun term => "https://cdn.svgporn.com/logos/" ++ term ++ "-icon.svg"] },
  { pid := "gilbarbara", name := "Gil Barbara Logos", urls := [
      fun term => "https://raw.githubusercontent.com/gilbarbara/logos/master/logos/" ++ term ++ ".svg",
      fun term => "https://raw.githubusercontent.com/gilbarbara/logos/master/logos/" ++ term ++ "-icon.svg"] },
  { pid := "wikimedia", name := "Wikimedia Commons", urls := [
      fun term => "https://upload.wikimedia.org/wikipedia/commons/thumb/archive/" ++ term ++ "_logo.svg",
      fun term => "https://upload.wikimedia.org/wikipedia/commons/thumb/archive/" ++ term ++ "-logo.svg"] },
  { pid := "brandLogos", name := "Brand Logos", urls := [
      fun term => "https://www.brandlogos.net/logos/" ++ term ++ "-logo.svg",
      fun term => "https://www.brandlogos.net/logos/" ++ term ++ "_logo.svg"] }]

/-- The constant `FAILED_SOURCE_RESET_TIME` (milliseconds between sweeps of
the failed-source state). -/
def FAILED_SOURCE_RESET_TIME : Nat := 1000 * 60 * 5

/-- Character class kept by `normalizeTerm`'s `replace(/[^a-z0-9]/g, '')`,
stated on code points. -/
def isTermChar (c : Char) : Bool :=
  decide ((97 ≤ c.toNat ∧ c.toNat ≤ 122) ∨ (48 ≤ c.toNat ∧ c.toNat ≤ 57))

/-- ASCII model of JS `String.prototype.toLowerCase` applied per character. -/
def lowerChar (c : Char) : Char :=
  if 65 ≤ c.toNat ∧ c.toNat ≤ 90 then Char.ofNat (c.toNat + 32) else c

/-- Whitespace characters removed by JS `String.prototype.trim` (space, tab,
carriage return, line feed), stated on code points. -/
def isSpaceChar (c : Char) : Bool :=
  decide (c.toNat = 32 ∨ c.toNat = 9 ∨ c.toNat = 13 ∨ c.toNat = 10)

/-- Model of JS `trim`: drop whitespace from both ends of a character list. -/
def trimList (l : List Char) : List Char :=
  ((l.dropWhile isSpaceChar).reverse.dropWhile isSpaceChar).reverse

/-- The helper `normalizeTerm`:
`term.toLowerCase().trim().replace(/[^a-z0-9]/g, '')`. -/
def normalizeTerm (term : String) : String :=
  String.mk ((trimList (term.toList.map lowerChar)).filter isTermChar)

/-- Lookup in an association-list model of a JS `Map`. -/
def lookupAssoc {α : Type} : List (String × α) → String → Option α
  | [], _ => none
  | (k, v) :: rest, key => if k = key then some v else lookupAssoc rest key

/-- `Map.set`: replace the entry in place, or append a fresh one. -/
def setAssoc {α : Type} : List (String × α) → String → α → List (String × α)
  | [], key, v => [(key, v)]
  | (k, w) :: rest, key, v =>
    if k = key then (k, v) :: rest else (k, w) :: setAssoc rest key v

/-- `Map.delete`: remove the entry for a key. -/
def deleteAssoc {α : Type} : List (String × α) → String → List (String × α)
  | [], _ => []
  | (k, w) :: rest, key =>
    if k = key then deleteAssoc rest key else (k, w) :: deleteAssoc rest key

/-- `Set.add`: append the element if it is not already present. -/
def addElem (s : List String) (x : String) : List String :=
  if x ∈ s then s else s ++ [x]

/-- Read a per-key set out of a map of sets (absent key reads as empty). -/
def getSet (m : List (String × List String)) (key : String) : List String :=
  (lookupAssoc m key).getD []

/-- Insert an element into a per-key set (`get(key)?.add(x)`, with the key
ensured present as the code does before adding). -/
def addToSet (m : List (String × List String)) (key x : String) :
    List (String × List String) :=
  setAssoc m key (addElem (getSet m key) x)

/-- `if (!m.has(key)) m.set(key, new Set())`. -/
def ensureKey (m : List (String × List String)) (key : String) :
    List (String × List String) :=
  match lookupAssoc m key with
  | some _ => m
  | none => setAssoc m key []

/-- The module-level mutable state: `searchCache`, `usedSources`,
`failedSources`. -/
structure EngineState where
  searchCache : List (String × LogoSearchResult)
  usedSources : List (String × List String)
  failedSources : List (String × List String)
  deriving DecidableEq, Repr

/-- State at module load: all three maps empty. -/
def emptyState : EngineState := ⟨[], [], []⟩

/-- Outcome of one engine operation: the returned-or-thrown value, the state
the operation leaves behind, and the (providerId, url) pairs passed to the
validator, in invocation order. -/
structure SearchOutcome where
  result : Except String LogoSearchResult
  state : EngineState
  probed : List (String × String)
  deriving Repr

/-- Walk a url list, returning the first validated url and the trace of
validator invocations (tagged with the provider id). -/
def firstValid (valid : String → Bool) (pid : String) :
    List String → Option String × List (String × String)
  | [] => (none, [])
  | u :: rest =>
    if valid u then (some u, [(pid, u)])
    else
      let r := firstValid valid pid rest
      (r.1, (pid, u) :: r.2)

/-- The provider loop of `searchLogo`: try each registry source in order,
skipping recently failed ones; on a validated url build the result, record
the source used and cache the result; otherwise mark the source failed and
continue; throw when the registry is exhausted. -/
def searchLogoLoop (valid : String → Bool) (term key : String) :
    List LogoSource → EngineState → SearchOutcome
  | [], st => ⟨Except.error ("No SVG logo found for: " ++ term), st, []⟩
  | s :: rest, st =>
    if s.pid ∈ getSet st.failedSources key then
      searchLogoLoop valid term key rest st
    else
      match firstValid valid s.pid (s.urls.map (fun g => g key)) with
      | (some url, probed) =>
        let result : LogoSearchResult :=
          ⟨s.pid ++ "-" ++ key, url, s.pid, s.name⟩
        ⟨Except.ok result,
         { st with usedSources := addToSet st.usedSources key s.pid,
                   searchCache := setAssoc st.searchCache key result },
         probed⟩
      | (none, probed) =>
        let out := searchLogoLoop valid term key rest
          { st with failedSources := addToSet st.failedSources key s.pid }
        ⟨out.result, out.state, probed ++ out.probed⟩

/-- `searchLogo`: normalize, serve from the cache when possible, otherwise
initialize the per-term ledger entries and walk the registry. -/
def searchLogo (valid : String → Bool) (term : String) (st : EngineState) :
    SearchOutcome :=
  let key := normalizeTerm term
  match lookupAssoc st.searchCache key with
  | some r => ⟨Except.ok r, st, []⟩
  | none =>
    searchLogoLoop valid term key LOGO_SOURCES
      { st with usedSources := ensureKey st.usedSources key,
                failedSources := ensureKey st.failedSources key }

/-- The prioritized candidate list built by `searchLogoAlternative` from the
snapshots of the per-term used and failed sets: providers neither used nor
failed, then providers used before (other than the current one) and not
failed, then the current provider (looked up by `find`) if it has not
failed. -/
def prioritizedProviders (termUsed termFailed : List String)
    (currentProvider : Option String) : List LogoSource :=
  let unusedProviders := LOGO_SOURCES.filter
    (fun s => decide (s.pid ∉ termUsed ∧ s.pid ∉ termFailed))
  let usedProviders := LOGO_SOURCES.filter
    (fun s => decide (s.pid ∈ termUsed ∧ some s.pid ≠ currentProvider ∧
                      s.pid ∉ termFailed))
  let currentProviderEntry :=
    match currentProvider with
    | some c =>
      if c ∈ termFailed then none
      else LOGO_SOURCES.find? (fun s => decide (s.pid = c))
    | none => none
  unusedProviders ++ usedProviders ++
    (match currentProviderEntry with
     | some s => [s]
     | none => [])

/-- The provider loop of `searchLogoAlternative`: within each candidate the
generated urls byte-identical to `currentUrl` are filtered out before
validation; a success records the source used and returns an id with the
`rand` disambiguator suffix without caching; a fully failed candidate is
marked failed. -/
def searchLogoAltLoop (valid : String → Bool) (rand term key currentUrl : String) :
    List LogoSource → EngineState → SearchOutcome
  | [], st => ⟨Except.error ("No alternative SVG logo found for: " ++ term), st, []⟩
  | s :: rest, st =>
    let urlsToTry := (s.urls.map (fun g => g key)).filter (fun u => u ≠ currentUrl)
    match firstValid valid s.pid urlsToTry with
    | (some url, probed) =>
      let result : LogoSearchResult :=
        ⟨s.pid ++ "-" ++ key ++ "-" ++ rand, url, s.pid, s.name⟩
      ⟨Except.ok result,
       { st with usedSources := addToSet st.usedSources key s.pid },
       probed⟩
    | (none, probed) =>
      let out := searchLogoAltLoop valid rand term key currentUrl rest
        { st with failedSources := addToSet st.failedSources key s.pid }
      ⟨out.result, out.state, probed ++ out.probed⟩

/-- `searchLogoAlternative`: normalize, delete the cache entry for the term,
snapshot the used and failed sets, and walk the prioritized providers.  The
`Math.random().toString(36).substring(2, 9)` draw is passed in as `rand`. -/
def searchLogoAlternative (valid : String → Bool) (rand term currentUrl : String)
    (currentProvider : Option String) (st : EngineState) : SearchOutcome :=
  let key := normalizeTerm term
  let st0 : EngineState := { st with searchCache := deleteAssoc st.searchCache key }
  searchLogoAltLoop valid rand term key currentUrl
    (prioritizedProviders (getSet st.usedSources key)
      (getSet st.failedSources key) currentProvider) st0

/-- The settled per-term outcomes of `searchMultipleLogos`: one `searchLogo`
call per term (`Promise.allSettled` keeps input order), paired with the
original term. -/
def runBatch (valid : String → Bool) :
    List String → EngineState →
    List (String × Except String LogoSearchResult) × EngineState
  | [], st => ([], st)
  | t :: rest, st =>
    let out := searchLogo valid t st
    let r := runBatch valid rest out.state
    ((t, out.result) :: r.1, r.2)

/-- Project the successful results out of the settled outcomes. -/
def batchSuccesses (pairs : List (String × Except String LogoSearchResult)) :
    List LogoSearchResult :=
  pairs.filterMap (fun p =>
    match p.2 with
    | Except.ok r => some r
    | Except.error _ => none)

/-- Project the original terms of the failed outcomes. -/
def batchFailures (pairs : List (String × Except String LogoSearchResult)) :
    List String :=
  pairs.filterMap (fun p =>
    match p.2 with
    | Except.ok _ => none
    | Except.error _ => some p.1)

/-- `searchMultipleLogos`: settle one `searchLogo` per term, partition into
successes and failed original terms, and throw when there is no success at
all. -/
def searchMultipleLogos (valid : String → Bool) (terms : List String)
    (st : EngineState) : Except String MultiLogoSearchResult × EngineState :=
  let r := runBatch valid terms st
  let successfulResults := batchSuccesses r.1
  let failedTerms := batchFailures r.1
  if successfulResults.isEmpty then
    (Except.error "No logos found. Try different search terms.", r.2)
  else
    (Except.ok ⟨successfulResults, failedTerms⟩, r.2)

/-! Lemmas about the term normalizer. -/

theorem lowerChar_eq_self {c : Char} (h : isTermChar c = true) :
    lowerChar c = c := by
  unfold isTermChar at h
  have h' := of_decide_eq_true h
  unfold lowerChar
  rw [if_neg]
  omega

theorem isSpaceChar_eq_false {c : Char} (h : isTermChar c = true) :
    isSpaceChar c = false := by
  unfold isTermChar at h
  have h' := of_decide_eq_true h
  unfold isSpaceChar
  simp only [decide_eq_false_iff_not]
  omega

theorem dropWhile_space_eq_self {l : List Char}
    (h : ∀ c ∈ l, isSpaceChar c = false) :
    l.dropWhile isSpaceChar = l := by
  cases l with
  | nil => rfl
  | cons a t => simp [List.dropWhile_cons, h a (by simp)]

theorem trimList_eq_self {l : List Char}
    (h : ∀ c ∈ l, isSpaceChar c = false) : trimList l = l := by
  unfold trimList
  rw [dropWhile_space_eq_self h,
    dropWhile_space_eq_self (fun c hc => h c (List.mem_reverse.mp hc)),
    List.reverse_reverse]

theorem map_id_of_mem {α : Type} (f : α → α) :
    ∀ l : List α, (∀ c ∈ l, f c = c) → l.map f = l
  | [], _ => rfl
  | a :: t, h => by
    simp only [List.map_cons, h a (by simp),
      map_id_of_mem f t (fun c hc => h c (by simp [hc]))]

theorem normalizeTerm_toList (x : String) :
    (normalizeTerm x).toList =
      (trimList (x.toList.map lowerChar)).filter isTermChar := rfl

theorem mem_normalizeTerm_isTermChar {x : String} {c : Char}
    (hc : c ∈ (normalizeTerm x).toList) : isTermChar c = true := by
  rw [normalizeTerm_toList] at hc
  exact (List.mem_filter.mp hc).2

theorem normalizeTerm_idempotent (x : String) :
    normalizeTerm (normalizeTerm x) = normalizeTerm x := by
  have hmem : ∀ c ∈ (normalizeTerm x).toList, isTermChar c = true :=
    fun c hc => mem_normalizeTerm_isTermChar hc
  show String.mk ((trimList ((normalizeTerm x).toList.map lowerChar)).filter
    isTermChar) = normalizeTerm x
  rw [map_id_of_mem lowerChar _ (fun c hc => lowerChar_eq_self (hmem c hc)),
    trimList_eq_self (fun c hc => isSpaceChar_eq_false (hmem c hc)),
    List.filter_eq_self.mpr hmem]
  rfl

/-- C9: `normalizeTerm` is total (a function of its Lean type), deterministic,
idempotent, produces only characters in `[a-z0-9]`, and identifies strings
differing only in case, whitespace or punctuation, e.g. "Coca-Cola",
"cocacola" and "COCA COLA". -/
theorem c9_normalizeTerm_idempotent_charset :
    (∀ x : String, normalizeTerm (normalizeTerm x) = normalizeTerm x) ∧
    (∀ x : String, ∀ c ∈ (normalizeTerm x).toList, isTermChar c = true) ∧
    normalizeTerm "Coca-Cola" = normalizeTerm "cocacola" ∧
    normalizeTerm "cocacola" = normalizeTerm "COCA COLA" ∧
    normalizeTerm "Coca-Cola" = "cocacola" :=
  ⟨normalizeTerm_idempotent,
   fun _ _ hc => mem_normalizeTerm_isTermChar hc,
   by decide, by decide, by decide⟩

/-- C9 witness: the quantified parts of the claim, evaluated at "Coca-Cola"
and at the character 'c' of its normal form. -/
theorem c9_witness :
    normalizeTerm (normalizeTerm "Coca-Cola") = normalizeTerm "Coca-Cola" ∧
    isTermChar 'c' = true :=
  ⟨c9_normalizeTerm_idempotent_charset.1 "Coca-Cola",
   c9_normalizeTerm_idempotent_charset.2.1 "Coca-Cola" 'c' (by decide)⟩

/-! Lemmas about the map and set models. -/

theorem lookupAssoc_setAssoc_self {α : Type} (m : List (String × α))
    (k : String) (v : α) : lookupAssoc (setAssoc m k v) k = some v := by
  induction m with
  | nil => simp [setAssoc, lookupAssoc]
  | cons p rest ih =>
    obtain ⟨k', w⟩ := p
    by_cases h : k' = k
    · simp [setAssoc, h, lookupAssoc]
    · simp [setAssoc, h, lookupAssoc, ih]

theorem lookupAssoc_setAssoc_other {α : Type} (m : List (String × α))
    {k k' : String} (v : α) (h : k' ≠ k) :
    lookupAssoc (setAssoc m k v) k' = lookupAssoc m k' := by
  have h' : ¬k = k' := fun hh => h hh.symm
  induction m with
  | nil => simp [setAssoc, lookupAssoc, h']
  | cons p rest ih =>
    obtain ⟨ka, w⟩ := p
    by_cases hk : ka = k
    · subst hk
      simp [setAssoc, lookupAssoc, h']
    · simp [setAssoc, hk, lookupAssoc, ih]

theorem lookupAssoc_deleteAssoc_self {α : Type} (m : List (String × α))
    (k : String) : lookupAssoc (deleteAssoc m k) k = none := by
  induction m with
  | nil => simp [deleteAssoc, lookupAssoc]
  | cons p rest ih =>
    obtain ⟨k', w⟩ := p
    by_cases h : k' = k
    · simp [deleteAssoc, h, ih]
    · simp [deleteAssoc, h, lookupAssoc, ih]

theorem lookupAssoc_deleteAssoc_other {α : Type} (m : List (String × α))
    {k k' : String} (h : k' ≠ k) :
    lookupAssoc (deleteAssoc m k) k' = lookupAssoc m k' := by
  have h' : ¬k = k' := fun hh => h hh.symm
  induction m with
  | nil => simp [deleteAssoc]
  | cons p rest ih =>
    obtain ⟨ka, w⟩ := p
    by_cases hk : ka = k
    · subst hk
      simp [deleteAssoc, lookupAssoc, h', ih]
    · simp [deleteAssoc, hk, lookupAssoc, ih]

theorem getSet_addToSet_self (m : List (String × List String)) (k x : String) :
    getSet (addToSet m k x) k = addElem (getSet m k) x := by
  unfold addToSet getSet
  rw [lookupAssoc_setAssoc_self]
  rfl

theorem getSet_addToSet_other (m : List (String × List String))
    {k k' : String} (x : String) (h : k' ≠ k) :
    getSet (addToSet m k x) k' = getSet m k' := by
  unfold addToSet getSet
  rw [lookupAssoc_setAssoc_other _ _ h]

theorem getSet_ensureKey (m : List (String × List String)) (k k' : String) :
    getSet (ensureKey m k) k' = getSet m k' := by
  unfold ensureKey
  cases h : lookupAssoc m k with
  | some v => rfl
  | none =>
    by_cases hk : k' = k
    · subst hk
      unfold getSet
      rw [lookupAssoc_setAssoc_self, h]
      rfl
    · unfold getSet
      rw [lookupAssoc_setAssoc_other _ _ hk]

theorem mem_addElem_self (s : List String) (x : String) : x ∈ addElem s x := by
  unfold addElem
  split
  · assumption
  · simp

theorem mem_addElem_of_mem {s : List String} {y : String} (x : String)
    (h : y ∈ s) : y ∈ addElem s x := by
  unfold addElem
  split
  · exact h
  · simp [h]

/-! Lemmas about `firstValid`. -/

theorem firstValid_eq_none {valid : String → Bool} {pid : String}
    {us : List String} (h : ∀ u ∈ us, valid u = false) :
    firstValid valid pid us = (none, us.map (fun u => (pid, u))) := by
  induction us with
  | nil => rfl
  | cons u rest ih =>
    simp only [firstValid, h u (by simp),
      ih (fun v hv => h v (by simp [hv])), Bool.false_eq_true, if_false,
      List.map_cons]

theorem firstValid_fst_some {valid : String → Bool} {pid : String}
    {us : List String} {u : String}
    (h : (firstValid valid pid us).1 = some u) : u ∈ us ∧ valid u = true := by
  induction us with
  | nil => simp [firstValid] at h
  | cons v rest ih =>
    by_cases hv : valid v = true
    · simp only [firstValid, hv, if_true] at h
      obtain rfl : v = u := by simpa using h
      exact ⟨by simp, hv⟩
    · simp only [firstValid, hv, if_false] at h
      obtain ⟨h1, h2⟩ := ih h
      exact ⟨by simp [h1], h2⟩

theorem firstValid_probed_pid {valid : String → Bool} {pid : String}
    {us : List String} {p : String × String}
    (h : p ∈ (firstValid valid pid us).2) : p.1 = pid := by
  induction us with
  | nil => simp [firstValid] at h
  | cons v rest ih =>
    by_cases hv : valid v = true
    · simp only [firstValid, hv, if_true] at h
      simp only [List.mem_singleton] at h
      rw [h]
    · simp only [firstValid, hv, if_false] at h
      rcases List.mem_cons.mp h with h1 | h1
      · rw [h1]
      · exact ih h1

/-! Lemmas about the primary lookup loop. -/

theorem searchLogoLoop_ok {valid : String → Bool} {term key : String}
    {ss : List LogoSource} {st : EngineState} {r : LogoSearchResult}
    (h : (searchLogoLoop valid term key ss st).result = Except.ok r) :
    lookupAssoc (searchLogoLoop valid term key ss st).state.searchCache key
      = some r ∧
    r.id = r.source ++ "-" ++ key := by
  induction ss generalizing st with
  | nil => simp [searchLogoLoop] at h
  | cons s rest ih =>
    by_cases hskip : s.pid ∈ getSet st.failedSources key
    · simp only [searchLogoLoop, hskip, if_true] at h ⊢
      exact ih h
    · cases hfv : firstValid valid s.pid (s.urls.map (fun g => g key)) with
      | mk o probed =>
        cases o with
        | some url =>
          simp only [searchLogoLoop, hskip, if_false, hfv] at h ⊢
          obtain rfl : (⟨s.pid ++ "-" ++ key, url, s.pid, s.name⟩ :
              LogoSearchResult) = r := by simpa using h
          exact ⟨lookupAssoc_setAssoc_self _ _ _, rfl⟩
        | none =>
          simp only [searchLogoLoop, hskip, if_false, hfv] at h ⊢
          exact ih h

theorem searchLogoLoop_error {valid : String → Bool} {term key : String}
    {ss : List LogoSource} {st : EngineState} {e : String}
    (h : (searchLogoLoop valid term key ss st).result = Except.error e) :
    e = "No SVG logo found for: " ++ term ∧
    (searchLogoLoop valid term key ss st).state.searchCache = st.searchCache := by
  induction ss generalizing st with
  | nil =>
    simp only [searchLogoLoop, Except.error.injEq] at h
    exact ⟨h.symm, rfl⟩
  | cons s rest ih =>
    by_cases hskip : s.pid ∈ getSet st.failedSources key
    · simp only [searchLogoLoop, hskip, if_true] at h ⊢
      exact ih h
    · cases hfv : firstValid valid s.pid (s.urls.map (fun g => g key)) with
      | mk o probed =>
        cases o with
        | some url => simp [searchLogoLoop, hskip, hfv] at h
        | none =>
          simp only [searchLogoLoop, hskip, if_false, hfv] at h ⊢
          exact ih h

theorem searchLogoLoop_all_invalid {valid : String → Bool} {term key : String}
    {ss : List LogoSource} (st : EngineState)
    (hall : ∀ s ∈ ss, ∀ g ∈ s.urls, valid (g key) = false) :
    (searchLogoLoop valid term key ss st).result =
      Except.error ("No SVG logo found for: " ++ term) := by
  induction ss generalizing st with
  | nil => rfl
  | cons s rest ih =>
    have hs : ∀ u ∈ s.urls.map (fun g => g key), valid u = false := by
      intro u hu
      obtain ⟨g, hg, rfl⟩ := List.mem_map.mp hu
      exact hall s (by simp) g hg
    by_cases hskip : s.pid ∈ getSet st.failedSources key
    · simp only [searchLogoLoop, hskip, if_true]
      exact ih _ (fun s' hs' => hall s' (by simp [hs']))
    · simp only [searchLogoLoop, hskip, if_false, firstValid_eq_none hs]
      exact ih _ (fun s' hs' => hall s' (by simp [hs']))

theorem searchLogoLoop_failed_mono {valid : String → Bool} {term key : String}
    {ss : List LogoSource} {st : EngineState} {x : String}
    (h : x ∈ getSet st.failedSources key) :
    x ∈ getSet (searchLogoLoop valid term key ss st).state.failedSources key := by
  induction ss generalizing st with
  | nil => exact h
  | cons s rest ih =>
    by_cases hskip : s.pid ∈ getSet st.failedSources key
    · simp only [searchLogoLoop, hskip, if_true]
      exact ih h
    · cases hfv : firstValid valid s.pid (s.urls.map (fun g => g key)) with
      | mk o probed =>
        cases o with
        | some url => simpa only [searchLogoLoop, hskip, if_false, hfv] using h
        | none =>
          simp only [searchLogoLoop, hskip, if_false, hfv]
          refine ih ?_
          show x ∈ getSet (addToSet st.failedSources key s.pid) key
          rw [getSet_addToSet_self]
          exact mem_addElem_of_mem _ h

theorem searchLogoLoop_probed_ne {valid : String → Bool} {term key : String}
    {ss : List LogoSource} {st : EngineState} {x : String}
    (hx : x ∈ getSet st.failedSources key) :
    ∀ p ∈ (searchLogoLoop valid term key ss st).probed, p.1 ≠ x := by
  induction ss generalizing st with
  | nil => simp [searchLogoLoop]
  | cons s rest ih =>
    by_cases hskip : s.pid ∈ getSet st.failedSources key
    · simp only [searchLogoLoop, hskip, if_true]
      exact ih hx
    · cases hfv : firstValid valid s.pid (s.urls.map (fun g => g key)) with
      | mk o probed =>
        have hpid : s.pid ≠ x := fun hh => hskip (hh ▸ hx)
        cases o with
        | some url =>
          simp only [searchLogoLoop, hskip, if_false, hfv]
          intro p hp
          have : p.1 = s.pid := firstValid_probed_pid (by rw [hfv]; exact hp)
          rw [this]
          exact hpid
        | none =>
          simp only [searchLogoLoop, hskip, if_false, hfv]
          intro p hp
          rcases List.mem_append.mp hp with hp1 | hp1
          · have : p.1 = s.pid := firstValid_probed_pid (by rw [hfv]; exact hp1)
            rw [this]
            exact hpid
          · refine ih ?_ p hp1
            show x ∈ getSet (addToSet st.failedSources key s.pid) key
            rw [getSet_addToSet_self]
            exact mem_addElem_of_mem _ hx

theorem searchLogoLoop_probed_failed {valid : String → Bool} {term key : String}
    {ss : List LogoSource} {st : EngineState} {x : String}
    (hall : ∀ s ∈ ss, s.pid = x → ∀ g ∈ s.urls, valid (g key) = false)
    (hp : ∃ p ∈ (searchLogoLoop valid term key ss st).probed, p.1 = x) :
    x ∈ getSet (searchLogoLoop valid term key ss st).state.failedSources key := by
  induction ss generalizing st with
  | nil => simp [searchLogoLoop] at hp
  | cons s rest ih =>
    by_cases hskip : s.pid ∈ getSet st.failedSources key
    · simp only [searchLogoLoop, hskip, if_true] at hp ⊢
      exact ih (fun s' hs' => hall s' (by simp [hs'])) hp
    · cases hfv : firstValid valid s.pid (s.urls.map (fun g => g key)) with
      | mk o probed =>
        cases o with
        | some url =>
          simp only [searchLogoLoop, hskip, if_false, hfv] at hp
          obtain ⟨p, hp1, hp2⟩ := hp
          have hps : p.1 = s.pid := firstValid_probed_pid (by rw [hfv]; exact hp1)
          have hpx : s.pid = x := by rw [← hps, hp2]
          have hfst : (firstValid valid s.pid (s.urls.map (fun g => g key))).1
              = some url := by rw [hfv]
          obtain ⟨hmem, hval⟩ := firstValid_fst_some hfst
          obtain ⟨g, hg, rfl⟩ := List.mem_map.mp hmem
          have := hall s (by simp) hpx g hg
          rw [this] at hval
          exact absurd hval (by simp)
        | none =>
          simp only [searchLogoLoop, hskip, if_false, hfv] at hp ⊢
          obtain ⟨p, hp1, hp2⟩ := hp
          rcases List.mem_append.mp hp1 with hq | hq
          · have hps : p.1 = s.pid := firstValid_probed_pid (by rw [hfv]; exact hq)
            have hpx : s.pid = x := by rw [← hps, hp2]
            refine searchLogoLoop_failed_mono ?_
            show x ∈ getSet (addToSet st.failedSources key s.pid) key
            rw [getSet_addToSet_self, hpx]
            exact mem_addElem_self _ _
          · exact ih (fun s' hs' => hall s' (by simp [hs'])) ⟨p, hq, hp2⟩

/-! Theorems about `searchLogo`. -/

theorem searchLogo_ok_cache {valid : String → Bool} {term : String}
    {st : EngineState} {r : LogoSearchResult}
    (h : (searchLogo valid term st).result = Except.ok r) :
    lookupAssoc (searchLogo valid term st).state.searchCache
      (normalizeTerm term) = some r := by
  cases hc : lookupAssoc st.searchCache (normalizeTerm term) with
  | some cr =>
    simp only [searchLogo, hc] at h ⊢
    obtain rfl : cr = r := by simpa using h
    rfl
  | none =>
    simp only [searchLogo, hc] at h ⊢
    exact (searchLogoLoop_ok h).1

/-- C8: primary lookup is cache-idempotent.  If `searchLogo` succeeds with
Result `r`, a second `searchLogo` for the same term on the resulting state —
under any validator, so, in particular, with no network dependence — returns
exactly `r` (hence an identical `url`), leaves the state unchanged, and
invokes the validator on no URL at all (no registry walk). -/
theorem c8_cache_idempotent (valid valid' : String → Bool) (term : String)
    (st : EngineState) (r : LogoSearchResult)
    (h : (searchLogo valid term st).result = Except.ok r) :
    searchLogo valid' term ((searchLogo valid term st).state) =
      ⟨Except.ok r, (searchLogo valid term st).state, []⟩ := by
  have hc := searchLogo_ok_cache h
  generalize hst : (searchLogo valid term st).state = st' at hc ⊢
  simp only [searchLogo, hc]

/-- C8 witness: after resolving "acme" with an all-accepting validator, the
second lookup under an all-rejecting validator still returns the same cached
Result and probes nothing. -/
theorem c8_witness :
    searchLogo (fun _ => false) "acme"
        ((searchLogo (fun _ => true) "acme" emptyState).state) =
      ⟨Except.ok ⟨"simpleIcons-acme",
        "https://raw.githubusercontent.com/simple-icons/simple-icons/develop/icons/acme.svg",
        "simpleIcons", "Simple Icons"⟩,
       (searchLogo (fun _ => true) "acme" emptyState).state, []⟩ :=
  c8_cache_idempotent (fun _ => true) (fun _ => false) "acme" emptyState _ rfl

/-- C6: when the cache has no entry for the normalized term and no registry
source generates a URL the validator accepts, `searchLogo` fails with the
not-found message naming the (original) term, and the cache is unchanged. -/
theorem c6_not_found (valid : String → Bool) (term : String) (st : EngineState)
    (hmiss : lookupAssoc st.searchCache (normalizeTerm term) = none)
    (hall : ∀ s ∈ LOGO_SOURCES, ∀ g ∈ s.urls,
      valid (g (normalizeTerm term)) = false) :
    (searchLogo valid term st).result =
      Except.error ("No SVG logo found for: " ++ term) ∧
    (searchLogo valid term st).state.searchCache = st.searchCache := by
  simp only [searchLogo, hmiss]
  refine ⟨searchLogoLoop_all_invalid _ hall, ?_⟩
  exact (searchLogoLoop_error (searchLogoLoop_all_invalid _ hall)).2

/-- C6 witness: with an all-rejecting validator, `searchLogo "nosuchbrand"`
on the empty state fails with the message naming "nosuchbrand" and leaves
the (empty) cache unchanged. -/
theorem c6_witness :
    (searchLogo (fun _ => false) "nosuchbrand" emptyState).result =
      Except.error ("No SVG logo found for: " ++ "nosuchbrand") ∧
    (searchLogo (fun _ => false) "nosuchbrand" emptyState).state.searchCache =
      emptyState.searchCache :=
  c6_not_found (fun _ => false) "nosuchbrand" emptyState rfl (by decide)

/-- C4: failure back-off.  (a) If during a `searchLogo` run the validator was
invoked for source id `x` (some probe is tagged `x`) and every URL of every
registry source with id `x` is rejected by the validator, then `x` is in the
failed-set for the normalized term afterwards.  (b) If `x` is in the
failed-set for the normalized term — as it is until the 5-minute sweep
clears `failedSources` — a `searchLogo` call never invokes the validator on
any URL of source `x`.  (c) The sweep interval is 5 minutes. -/
theorem c4_failed_backoff :
    (∀ (valid : String → Bool) (term : String) (st : EngineState) (x : String),
      (∀ s ∈ LOGO_SOURCES, s.pid = x → ∀ g ∈ s.urls,
        valid (g (normalizeTerm term)) = false) →
      (∃ p ∈ (searchLogo valid term st).probed, p.1 = x) →
      x ∈ getSet (searchLogo valid term st).state.failedSources
        (normalizeTerm term)) ∧
    (∀ (valid : String → Bool) (term : String) (st : EngineState) (x : String),
      x ∈ getSet st.failedSources (normalizeTerm term) →
      ∀ p ∈ (searchLogo valid term st).probed, p.1 ≠ x) ∧
    FAILED_SOURCE_RESET_TIME = 1000 * 60 * 5 := by
  refine ⟨?_, ?_, rfl⟩
  · intro valid term st x hall hp
    cases hc : lookupAssoc st.searchCache (normalizeTerm term) with
    | some cr =>
      simp only [searchLogo, hc] at hp
      simp at hp
    | none =>
      simp only [searchLogo, hc] at hp ⊢
      exact searchLogoLoop_probed_failed hall hp
  · intro valid term st x hx
    cases hc : lookupAssoc st.searchCache (normalizeTerm term) with
    | some cr => simp [searchLogo, hc]
    | none =>
      simp only [searchLogo, hc]
      refine searchLogoLoop_probed_ne ?_
      show x ∈ getSet (ensureKey st.failedSources (normalizeTerm term))
        (normalizeTerm term)
      rw [getSet_ensureKey]
      exact hx

/-- C4 witness: with an all-rejecting validator, resolving "acme" probes
"simpleIcons" URLs and marks the source failed; on the resulting state a
second resolution never probes a "simpleIcons" URL. -/
theorem c4_witness :
    "simpleIcons" ∈ getSet
      (searchLogo (fun _ => false) "acme" emptyState).state.failedSources
      (normalizeTerm "acme") ∧
    (∀ p ∈ (searchLogo (fun _ => false) "acme"
        ((searchLogo (fun _ => false) "acme" emptyState).state)).probed,
      p.1 ≠ "simpleIcons") :=
  ⟨c4_failed_backoff.1 (fun _ => false) "acme" emptyState "simpleIcons"
      (by decide) (by decide),
   c4_failed_backoff.2.1 (fun _ => false) "acme"
      ((searchLogo (fun _ => false) "acme" emptyState).state) "simpleIcons"
      (by decide)⟩

/-! Lemmas and theorems about `searchLogoAlternative`. -/

theorem searchLogoAltLoop_ok {valid : String → Bool}
    {rand term key currentUrl : String} {ss : List LogoSource}
    {st : EngineState} {r : LogoSearchResult}
    (h : (searchLogoAltLoop valid rand term key currentUrl ss st).result =
      Except.ok r) :
    r.url ≠ currentUrl ∧ r.id = r.source ++ "-" ++ key ++ "-" ++ rand := by
  induction ss generalizing st with
  | nil => simp [searchLogoAltLoop] at h
  | cons s rest ih =>
    cases hfv : firstValid valid s.pid
        ((s.urls.map (fun g => g key)).filter (fun u => u ≠ currentUrl)) with
    | mk o probed =>
      cases o with
      | some url =>
        simp only [searchLogoAltLoop, hfv] at h
        obtain rfl : (⟨s.pid ++ "-" ++ key ++ "-" ++ rand, url, s.pid, s.name⟩ :
            LogoSearchResult) = r := by simpa using h
        have hfst : (firstValid valid s.pid
            ((s.urls.map (fun g => g key)).filter (fun u => u ≠ currentUrl))).1
            = some url := by rw [hfv]
        obtain ⟨hmem, -⟩ := firstValid_fst_some hfst
        have hne : url ≠ currentUrl := by
          have := (List.mem_filter.mp hmem).2
          exact of_decide_eq_true this
        exact ⟨hne, rfl⟩
      | none =>
        simp only [searchLogoAltLoop, hfv] at h
        exact ih h

/-- C2: a Result returned by `searchLogoAlternative` never carries a `url`
byte-identical to the `currentUrl` the caller already has. -/
theorem c2_alternative_url_differs (valid : String → Bool)
    (rand term currentUrl : String) (currentProvider : Option String)
    (st : EngineState) (r : LogoSearchResult)
    (h : (searchLogoAlternative valid rand term currentUrl currentProvider
      st).result = Except.ok r) :
    r.url ≠ currentUrl := by
  simp only [searchLogoAlternative] at h
  exact (searchLogoAltLoop_ok h).1

/-! Concrete scenario used by witnesses and the C3 counterexample. -/

/-- Simple Icons' first generated URL for "acme". -/
def devUrl : String :=
  "https://raw.githubusercontent.com/simple-icons/simple-icons/develop/icons/acme.svg"

/-- Simple Icons' second generated URL for "acme". -/
def cdnUrl : String :=
  "https://cdn.jsdelivr.net/npm/simple-icons@latest/icons/acme.svg"

/-- Vector Logo Zone's first generated URL for "acme". -/
def vlzUrl : String :=
  "https://www.vectorlogo.zone/logos/acme/acme-icon.svg"

/-- Validator oracle accepting exactly one URL. -/
def acceptOnly (u0 : String) : String → Bool := fun u => decide (u = u0)

/-- State after `searchLogo "acme"` succeeds via Simple Icons' first URL. -/
def exState1 : EngineState :=
  (searchLogo (acceptOnly devUrl) "acme" emptyState).state

/-- State after a subsequent refresh for "acme" succeeds via Vector Logo
Zone (the cache entry for "acme" is now deleted and not rewritten). -/
def exState2 : EngineState :=
  (searchLogoAlternative (acceptOnly vlzUrl) "abc1234" "acme" devUrl
    (some "simpleIcons") exState1).state

/-- C3 counterexample: two distinct Results produced by primary `searchLogo`
share the id "simpleIcons-acme".  The first resolution of "acme" succeeds via
Simple Icons' first URL; a refresh then succeeds via another source, which
deletes the cache entry without rewriting it; the next primary resolution
succeeds via Simple Icons' second URL, producing a different Result with the
same id. -/
theorem c3_counterexample :
    (searchLogo (acceptOnly devUrl) "acme" emptyState).result =
      Except.ok ⟨"simpleIcons-acme", devUrl, "simpleIcons", "Simple Icons"⟩ ∧
    (searchLogo (acceptOnly cdnUrl) "acme" exState2).result =
      Except.ok ⟨"simpleIcons-acme", cdnUrl, "simpleIcons", "Simple Icons"⟩ ∧
    devUrl ≠ cdnUrl :=
  ⟨rfl, rfl, by decide⟩

/-- C3 as amended: ids produced by primary `searchLogo` (on a cache miss) are
the deterministic `source ++ "-" ++ key` — so distinct produced Results can
share an id — while every `searchLogoAlternative` Result id carries the
random disambiguator suffix and therefore never collides with the primary id
form for the same source and term. -/
theorem c3_id_forms :
    (∀ (valid : String → Bool) (rand term currentUrl : String)
      (currentProvider : Option String) (st : EngineState)
      (r : LogoSearchResult),
      (searchLogoAlternative valid rand term currentUrl currentProvider
        st).result = Except.ok r →
      r.id = r.source ++ "-" ++ normalizeTerm term ++ "-" ++ rand ∧
      r.id ≠ r.source ++ "-" ++ normalizeTerm term) ∧
    (∀ (valid : String → Bool) (term : String) (st : EngineState)
      (r : LogoSearchResult),
      lookupAssoc st.searchCache (normalizeTerm term) = none →
      (searchLogo valid term st).result = Except.ok r →
      r.id = r.source ++ "-" ++ normalizeTerm term) := by
  constructor
  · intro valid rand term currentUrl currentProvider st r h
    simp only [searchLogoAlternative] at h
    have hid := (searchLogoAltLoop_ok h).2
    refine ⟨hid, ?_⟩
    rw [hid]
    intro heq
    apply_fun String.length at heq
    have hdash : ("-" : String).length = 1 := rfl
    simp only [String.length_append, hdash] at heq
    omega
  · intro valid term st r hmiss h
    simp only [searchLogo, hmiss] at h
    exact (searchLogoLoop_ok h).2

/-- C3 witness: the amended id forms evaluated on the concrete scenario. -/
theorem c3_witness :
    ((⟨"vectorLogoZone-acme-abc1234", vlzUrl, "vectorLogoZone",
        "Vector Logo Zone"⟩ : LogoSearchResult).id =
      "vectorLogoZone" ++ "-" ++ normalizeTerm "acme" ++ "-" ++ "abc1234" ∧
     (⟨"vectorLogoZone-acme-abc1234", vlzUrl, "vectorLogoZone",
        "Vector Logo Zone"⟩ : LogoSearchResult).id ≠
      "vectorLogoZone" ++ "-" ++ normalizeTerm "acme") ∧
    (⟨"simpleIcons-acme", devUrl, "simpleIcons", "Simple Icons"⟩ :
      LogoSearchResult).id = "simpleIcons" ++ "-" ++ normalizeTerm "acme" :=
  ⟨c3_id_forms.1 (acceptOnly vlzUrl) "abc1234" "acme" devUrl
      (some "simpleIcons") exState1 _ rfl,
   c3_id_forms.2 (acceptOnly devUrl) "acme" emptyState _ rfl rfl⟩

/-- C2 witness: the refresh of the concrete scenario returns a Result whose
url differs from the caller's current url. -/
theorem c2_witness :
    (searchLogoAlternative (acceptOnly vlzUrl) "abc1234" "acme" devUrl
      (some "simpleIcons") exState1).result =
      Except.ok ⟨"vectorLogoZone-acme-abc1234", vlzUrl, "vectorLogoZone",
        "Vector Logo Zone"⟩ ∧
    (⟨"vectorLogoZone-acme-abc1234", vlzUrl, "vectorLogoZone",
        "Vector Logo Zone"⟩ : LogoSearchResult).url ≠ devUrl :=
  ⟨rfl, c2_alternative_url_differs (acceptOnly vlzUrl) "abc1234" "acme" devUrl
    (some "simpleIcons") exState1 _ rfl⟩

/-! C7: the refresh candidate order, compared against the order as the
specification words it. -/

/-- Candidate order as the specification words it: (a) sources never used
for this term and not currently failed, in registry order; then (b) sources
used before, excluding the current source, and not currently failed, in
registry order; then (c) the current source itself (its registry entries),
last, if it is not currently failed. -/
def specAlternativeOrder (termUsed termFailed : List String)
    (currentProvider : Option String) : List LogoSource :=
  LOGO_SOURCES.filter
    (fun s => decide (s.pid ∉ termUsed ∧ s.pid ∉ termFailed)) ++
  LOGO_SOURCES.filter
    (fun s => decide (s.pid ∈ termUsed ∧ some s.pid ≠ currentProvider ∧
                      s.pid ∉ termFailed)) ++
  (match currentProvider with
   | some c =>
     if c ∈ termFailed then []
     else LOGO_SOURCES.filter (fun s => decide (s.pid = c))
   | none => [])

theorem filter_of_find_none {l : List LogoSource} {c : String}
    (hfind : l.find? (fun s => decide (s.pid = c)) = none) :
    l.filter (fun s => decide (s.pid = c)) = [] := by
  rw [List.filter_eq_nil_iff]
  intro s hs hc
  exact (List.find?_eq_none.mp hfind s hs) hc

theorem filter_of_find_some {l : List LogoSource} {c : String}
    {s0 : LogoSource} (hnd : (l.map LogoSource.pid).Nodup)
    (hfind : l.find? (fun s => decide (s.pid = c)) = some s0) :
    l.filter (fun s => decide (s.pid = c)) = [s0] := by
  induction l with
  | nil => simp [List.find?] at hfind
  | cons a t ih =>
    simp only [List.map_cons, List.nodup_cons] at hnd
    by_cases h : a.pid = c
    · rw [List.find?_cons_of_pos t (decide_eq_true h)] at hfind
      obtain rfl : a = s0 := by simpa using hfind
      rw [List.filter_cons_of_pos (p := fun s : LogoSource => decide (s.pid = c))
        (decide_eq_true h)]
      have hfilter : t.filter (fun s => decide (s.pid = c)) = [] := by
        rw [List.filter_eq_nil_iff]
        intro s hs hc
        have hsc : s.pid = c := of_decide_eq_true hc
        exact hnd.1 (List.mem_map.mpr ⟨s, hs, by rw [hsc, h]⟩)
      rw [hfilter]
    · have h' : ¬((fun s : LogoSource => decide (s.pid = c)) a = true) :=
        fun hc => h (of_decide_eq_true hc)
      rw [List.find?_cons_of_neg t h'] at hfind
      rw [List.filter_cons_of_neg (p := fun s : LogoSource => decide (s.pid = c)) h']
      exact ih hnd.2 hfind

theorem prioritizedProviders_eq_spec (termUsed termFailed : List String)
    (currentProvider : Option String) :
    prioritizedProviders termUsed termFailed currentProvider =
      specAlternativeOrder termUsed termFailed currentProvider := by
  unfold prioritizedProviders specAlternativeOrder
  cases currentProvider with
  | none => rfl
  | some c =>
    by_cases hf : c ∈ termFailed
    · simp [hf]
    · simp only [hf, if_false]
      cases hfind : LOGO_SOURCES.find? (fun s => decide (s.pid = c)) with
      | none => rw [filter_of_find_none hfind]
      | some s0 => rw [filter_of_find_some (by decide) hfind]

/-- C7: `searchLogoAlternative` walks the candidate sources in exactly the
specified priority order — the code's prioritized list coincides with the
spec-worded construction for every used-set, failed-set and current
provider, and the operation is that walk over the snapshots taken from the
state after deleting the term's cache entry. -/
theorem c7_alternative_priority (valid : String → Bool)
    (rand term currentUrl : String) (currentProvider : Option String)
    (st : EngineState) :
    prioritizedProviders (getSet st.usedSources (normalizeTerm term))
        (getSet st.failedSources (normalizeTerm term)) currentProvider =
      specAlternativeOrder (getSet st.usedSources (normalizeTerm term))
        (getSet st.failedSources (normalizeTerm term)) currentProvider ∧
    searchLogoAlternative valid rand term currentUrl currentProvider st =
      searchLogoAltLoop valid rand term (normalizeTerm term) currentUrl
        (specAlternativeOrder (getSet st.usedSources (normalizeTerm term))
          (getSet st.failedSources (normalizeTerm term)) currentProvider)
        { st with searchCache := deleteAssoc st.searchCache (normalizeTerm term) } := by
  refine ⟨prioritizedProviders_eq_spec _ _ _, ?_⟩
  simp only [searchLogoAlternative]
  rw [prioritizedProviders_eq_spec]

/-! Theorems about `searchMultipleLogos`. -/

/-- Whether a settled per-term outcome succeeded. -/
def isOkResult : Except String LogoSearchResult → Bool
  | Except.ok _ => true
  | Except.error _ => false

/-- C1 counterexample: on the empty term list `searchMultipleLogos` does not
return `{successes: [], failures: []}` — it throws the batch-level error
(zero successes trip the `successfulResults.length === 0` check). -/
theorem c1_counterexample :
    searchMultipleLogos (fun _ => true) [] emptyState =
      (Except.error "No logos found. Try different search terms.",
       emptyState) := rfl

/-- C1 as amended: `searchMultipleLogos []` raises the batch-level "no logos
found" failure — the empty batch is indistinguishable from the all-terms-
failed batch — leaving the state unchanged, rather than returning an empty
result without error. -/
theorem c1_empty_batch_fails (valid : String → Bool) (st : EngineState) :
    searchMultipleLogos valid [] st =
      (Except.error "No logos found. Try different search terms.", st) := rfl

theorem runBatch_map_fst (valid : String → Bool) :
    ∀ (terms : List String) (st : EngineState),
      ((runBatch valid terms st).1).map Prod.fst = terms
  | [], _ => rfl
  | t :: rest, st => by
    simp only [runBatch, List.map_cons, List.cons.injEq]
    exact ⟨trivial, runBatch_map_fst valid rest _⟩

theorem batchFailures_sub_fst
    {pairs : List (String × Except String LogoSearchResult)} {f : String}
    (hf : f ∈ batchFailures pairs) : f ∈ pairs.map Prod.fst := by
  obtain ⟨p, hp, hfp⟩ := List.mem_filterMap.mp hf
  cases hres : p.2 with
  | ok r => rw [hres] at hfp; simp at hfp
  | error e =>
    rw [hres] at hfp
    simp only [Option.some.injEq] at hfp
    exact List.mem_map.mpr ⟨p, hp, hfp⟩

theorem batchSuccesses_ne_nil
    {pairs : List (String × Except String LogoSearchResult)}
    (h : ∃ p ∈ pairs, isOkResult p.2 = true) : batchSuccesses pairs ≠ [] := by
  obtain ⟨p, hp, hok⟩ := h
  cases hres : p.2 with
  | error e => rw [hres] at hok; simp [isOkResult] at hok
  | ok r =>
    intro hnil
    have := List.filterMap_eq_nil_iff.mp hnil p hp
    rw [hres] at this
    simp at this

theorem batchFailures_ne_nil
    {pairs : List (String × Except String LogoSearchResult)}
    (h : ∃ p ∈ pairs, isOkResult p.2 = false) : batchFailures pairs ≠ [] := by
  obtain ⟨p, hp, hok⟩ := h
  cases hres : p.2 with
  | ok r => rw [hres] at hok; simp [isOkResult] at hok
  | error e =>
    intro hnil
    have := List.filterMap_eq_nil_iff.mp hnil p hp
    rw [hres] at this
    simp at this

theorem batchSuccesses_eq_nil
    {pairs : List (String × Except String LogoSearchResult)}
    (h : ∀ p ∈ pairs, isOkResult p.2 = false) : batchSuccesses pairs = [] := by
  apply List.filterMap_eq_nil_iff.mpr
  intro p hp
  cases hres : p.2 with
  | ok r => have := h p hp; rw [hres] at this; simp [isOkResult] at this
  | error e => simp [hres]

/-- C5: partial success versus total failure in the batch coordinator.  If
some settled per-term lookup succeeded, `searchMultipleLogos` returns the
partition — non-empty `successes`, and `failures` listing exactly the failed
terms' original input strings (each a member of the input list, verbatim),
non-empty whenever some term failed.  If every settled lookup failed, the
batch as a whole fails with the "no logos found" error. -/
theorem c5_batch_partition (valid : String → Bool) (terms : List String)
    (st : EngineState) :
    ((∃ p ∈ (runBatch valid terms st).1, isOkResult p.2 = true) →
      searchMultipleLogos valid terms st =
        (Except.ok ⟨batchSuccesses (runBatch valid terms st).1,
                    batchFailures (runBatch valid terms st).1⟩,
         (runBatch valid terms st).2) ∧
      batchSuccesses (runBatch valid terms st).1 ≠ [] ∧
      (∀ f ∈ batchFailures (runBatch valid terms st).1, f ∈ terms) ∧
      ((∃ p ∈ (runBatch valid terms st).1, isOkResult p.2 = false) →
        batchFailures (runBatch valid terms st).1 ≠ [])) ∧
    ((∀ p ∈ (runBatch valid terms st).1, isOkResult p.2 = false) →
      (searchMultipleLogos valid terms st).1 =
        Except.error "No logos found. Try different search terms.") := by
  constructor
  · intro hsome
    have hne := batchSuccesses_ne_nil hsome
    have hemp : (batchSuccesses (runBatch valid terms st).1).isEmpty = false := by
      cases hcs : batchSuccesses (runBatch valid terms st).1 with
      | nil => exact absurd hcs hne
      | cons a l => rfl
    refine ⟨?_, hne, ?_, batchFailures_ne_nil⟩
    · simp only [searchMultipleLogos, hemp, Bool.false_eq_true, if_false]
    · intro f hf
      have := batchFailures_sub_fst hf
      rw [runBatch_map_fst] at this
      exact this
  · intro hall
    have hnil := batchSuccesses_eq_nil hall
    simp only [searchMultipleLogos, hnil, List.isEmpty_nil, if_true]

/-- C5 witness: a batch of one resolvable and one unresolvable term returns
the partition with non-empty successes and the failed original term, and a
batch of only unresolvable terms fails outright. -/
theorem c5_witness :
    (searchMultipleLogos (acceptOnly devUrl) ["acme", "Nope!"] emptyState =
      (Except.ok ⟨batchSuccesses
          (runBatch (acceptOnly devUrl) ["acme", "Nope!"] emptyState).1,
        batchFailures
          (runBatch (acceptOnly devUrl) ["acme", "Nope!"] emptyState).1⟩,
       (runBatch (acceptOnly devUrl) ["acme", "Nope!"] emptyState).2) ∧
     batchFailures
       (runBatch (acceptOnly devUrl) ["acme", "Nope!"] emptyState).1 ≠ []) ∧
    (searchMultipleLogos (fun _ => false) ["Nope!"] emptyState).1 =
      Except.error "No logos found. Try different search terms." :=
  ⟨⟨((c5_batch_partition (acceptOnly devUrl) ["acme", "Nope!"]
        emptyState).1 (by decide)).1,
    ((c5_batch_partition (acceptOnly devUrl) ["acme", "Nope!"]
        emptyState).1 (by decide)).2.2.2 (by decide)⟩,
   (c5_batch_partition (fun _ => false) ["Nope!"] emptyState).2 (by decide)⟩

/-! C10: the cache–used-set invariant. -/

/-- Invariant: whenever the cache holds a Result for a key, that Result's
source id is a member of the used-set for that key. -/
def cacheUsedInv (st : EngineState) : Prop :=
  ∀ k r, lookupAssoc st.searchCache k = some r →
    r.source ∈ getSet st.usedSources k

theorem searchLogoLoop_inv {valid : String → Bool} {term key : String}
    {ss : List LogoSource} {st : EngineState} (h : cacheUsedInv st) :
    cacheUsedInv (searchLogoLoop valid term key ss st).state := by
  induction ss generalizing st with
  | nil => exact h
  | cons s rest ih =>
    by_cases hskip : s.pid ∈ getSet st.failedSources key
    · simp only [searchLogoLoop, hskip, if_true]
      exact ih h
    · cases hfv : firstValid valid s.pid (s.urls.map (fun g => g key)) with
      | mk o probed =>
        cases o with
        | some url =>
          simp only [searchLogoLoop, hskip, if_false, hfv]
          intro k r hk
          have hk' : lookupAssoc (setAssoc st.searchCache key
              (⟨s.pid ++ "-" ++ key, url, s.pid, s.name⟩ : LogoSearchResult)) k
              = some r := hk
          show r.source ∈ getSet (addToSet st.usedSources key s.pid) k
          by_cases hkey : k = key
          · subst hkey
            rw [lookupAssoc_setAssoc_self] at hk'
            obtain rfl : (⟨s.pid ++ "-" ++ k, url, s.pid, s.name⟩ :
                LogoSearchResult) = r := by simpa using hk'
            rw [getSet_addToSet_self]
            exact mem_addElem_self _ _
          · rw [lookupAssoc_setAssoc_other _ _ hkey] at hk'
            rw [getSet_addToSet_other _ _ hkey]
            exact h k r hk'
        | none =>
          simp only [searchLogoLoop, hskip, if_false, hfv]
          exact ih (fun k r hk => h k r hk)

theorem searchLogo_inv {valid : String → Bool} {term : String}
    {st : EngineState} (h : cacheUsedInv st) :
    cacheUsedInv (searchLogo valid term st).state := by
  cases hc : lookupAssoc st.searchCache (normalizeTerm term) with
  | some cr => simpa only [searchLogo, hc] using h
  | none =>
    simp only [searchLogo, hc]
    refine searchLogoLoop_inv ?_
    intro k r hk
    have hk' : lookupAssoc st.searchCache k = some r := hk
    show r.source ∈ getSet (ensureKey st.usedSources (normalizeTerm term)) k
    rw [getSet_ensureKey]
    exact h k r hk'

theorem searchLogoAltLoop_cache {valid : String → Bool}
    {rand term key currentUrl : String} {ss : List LogoSource}
    {st : EngineState} :
    (searchLogoAltLoop valid rand term key currentUrl ss st).state.searchCache
      = st.searchCache := by
  induction ss generalizing st with
  | nil => rfl
  | cons s rest ih =>
    cases hfv : firstValid valid s.pid
        ((s.urls.map (fun g => g key)).filter (fun u => u ≠ currentUrl)) with
    | mk o probed =>
      cases o with
      | some url => simp only [searchLogoAltLoop, hfv]
      | none =>
        simp only [searchLogoAltLoop, hfv]
        exact ih

theorem searchLogoAltLoop_inv {valid : String → Bool}
    {rand term key currentUrl : String} {ss : List LogoSource}
    {st : EngineState} (h : cacheUsedInv st) :
    cacheUsedInv
      (searchLogoAltLoop valid rand term key currentUrl ss st).state := by
  induction ss generalizing st with
  | nil => exact h
  | cons s rest ih =>
    cases hfv : firstValid valid s.pid
        ((s.urls.map (fun g => g key)).filter (fun u => u ≠ currentUrl)) with
    | mk o probed =>
      cases o with
      | some url =>
        simp only [searchLogoAltLoop, hfv]
        intro k r hk
        have hk' : lookupAssoc st.searchCache k = some r := hk
        have hsrc := h k r hk'
        show r.source ∈ getSet (addToSet st.usedSources key s.pid) k
        by_cases hkey : k = key
        · subst hkey
          rw [getSet_addToSet_self]
          exact mem_addElem_of_mem _ hsrc
        · rw [getSet_addToSet_other _ _ hkey]
          exact hsrc
      | none =>
        simp only [searchLogoAltLoop, hfv]
        exact ih (fun k r hk => h k r hk)

theorem searchLogoAlternative_inv {valid : String → Bool}
    {rand term currentUrl : String} {currentProvider : Option String}
    {st : EngineState} (h : cacheUsedInv st) :
    cacheUsedInv (searchLogoAlternative valid rand term currentUrl
      currentProvider st).state := by
  simp only [searchLogoAlternative]
  refine searchLogoAltLoop_inv ?_
  intro k r hk
  have hk' : lookupAssoc (deleteAssoc st.searchCache (normalizeTerm term)) k
      = some r := hk
  by_cases hkey : k = normalizeTerm term
  · subst hkey
    rw [lookupAssoc_deleteAssoc_self] at hk'
    exact absurd hk' (by simp)
  · rw [lookupAssoc_deleteAssoc_other _ hkey] at hk'
    exact h k r hk'

theorem searchLogoAlternative_cache (valid : String → Bool)
    (rand term currentUrl : String) (currentProvider : Option String)
    (st : EngineState) :
    (searchLogoAlternative valid rand term currentUrl currentProvider
      st).state.searchCache = deleteAssoc st.searchCache (normalizeTerm term) := by
  simp only [searchLogoAlternative]
  rw [searchLogoAltLoop_cache]

theorem runBatch_inv (valid : String → Bool) :
    ∀ (terms : List String) (st : EngineState),
      cacheUsedInv st → cacheUsedInv (runBatch valid terms st).2
  | [], _, h => h
  | t :: rest, st, h => by
    simp only [runBatch]
    exact runBatch_inv valid rest _ (searchLogo_inv h)

theorem searchMultipleLogos_snd (valid : String → Bool) (terms : List String)
    (st : EngineState) :
    (searchMultipleLogos valid terms st).2 = (runBatch valid terms st).2 := by
  simp only [searchMultipleLogos]
  split <;> rfl

/-- C10: every operation preserves the invariant that a cached Result's
source id belongs to the used-set of its key; the invariant holds of the
initial state; and `searchLogoAlternative` never writes the cache — its
final cache is exactly the input cache with the term's entry deleted
(success or failure), so cache entries are written only by a successful
primary `searchLogo`. -/
theorem c10_cache_source_invariant :
    cacheUsedInv emptyState ∧
    (∀ (valid : String → Bool) (term : String) (st : EngineState),
      cacheUsedInv st → cacheUsedInv (searchLogo valid term st).state) ∧
    (∀ (valid : String → Bool) (rand term currentUrl : String)
      (currentProvider : Option String) (st : EngineState),
      cacheUsedInv st →
      cacheUsedInv (searchLogoAlternative valid rand term currentUrl
        currentProvider st).state) ∧
    (∀ (valid : String → Bool) (terms : List String) (st : EngineState),
      cacheUsedInv st → cacheUsedInv (searchMultipleLogos valid terms st).2) ∧
    (∀ (valid : String → Bool) (rand term currentUrl : String)
      (currentProvider : Option String) (st : EngineState),
      (searchLogoAlternative valid rand term currentUrl currentProvider
        st).state.searchCache = deleteAssoc st.searchCache (normalizeTerm term)) := by
  refine ⟨?_, fun valid term st h => searchLogo_inv h,
    fun valid rand term currentUrl cp st h => searchLogoAlternative_inv h,
    fun valid terms st h => ?_,
    fun valid rand term currentUrl cp st =>
      searchLogoAlternative_cache valid rand term currentUrl cp st⟩
  · intro k r hk
    simp [emptyState, lookupAssoc] at hk
  · rw [searchMultipleLogos_snd]
    exact runBatch_inv valid terms st h

/-- C10 witness: the invariant, instantiated on the concrete resolve-then-
refresh scenario starting from the empty state. -/
theorem c10_witness :
    cacheUsedInv (searchLogo (acceptOnly devUrl) "acme" emptyState).state ∧
    cacheUsedInv (searchLogoAlternative (acceptOnly vlzUrl) "abc1234" "acme"
      devUrl (some "simpleIcons") exState1).state :=
  ⟨c10_cache_source_invariant.2.1 (acceptOnly devUrl) "acme" emptyState
      (by intro k r hk; simp [emptyState, lookupAssoc] at hk),
   c10_cache_source_invariant.2.2.1 (acceptOnly vlzUrl) "abc1234" "acme"
      devUrl (some "simpleIcons") exState1
      (c10_cache_source_invariant.2.1 (acceptOnly devUrl) "acme" emptyState
        (by intro k r hk; simp [emptyState, lookupAssoc] at hk))⟩

end SvgLogos
